import Mathlib

/-!
Verification of the gnlpy generic-netlink codec and client layer
(`netlink.py`, `ipvs.py`), shallowly embedded in Lean.

Bytes are modelled as `List Nat` (each entry a byte value).  Python
strings that hold binary data are byte lists as well.  Fallible Python
code (struct.pack/unpack errors, KeyError, AssertionError, raised
exceptions) is modelled with `Option`/`Except`.  The unbounded
`while` loop of `AttrListType.unpack` is modelled with an explicit
fuel parameter; the top-level wrapper passes `data.length + 1` fuel,
which suffices for every terminating run of the source loop (each
iteration either consumes at least 4 bytes or repeats the same state
forever), so `none` means the source raises or loops forever.
-/

set_option maxHeartbeats 1000000

/-- Little-endian encoding of `v` into `w` bytes, as `struct.pack` with
a native-endian format does on the x86 targets of this library. -/
def encodeLE : Nat → Nat → List Nat
  | 0, _ => []
  | w + 1, v => v % 256 :: encodeLE w (v / 256)

/-- Little-endian decoding of a byte list, as `struct.unpack` with a
native-endian format does. -/
def decodeLE : List Nat → Nat
  | [] => 0
  | b :: rest => b + 256 * decodeLE rest

/-- The scalar struct-format variants produced by
`create_struct_fmt_type`: `=B`, `=H`, `=I`, `=i`, `=Q`, `!H`, `!I`. -/
inductive ScalarFmt where
  | u8 | u16 | u32 | i32 | u64 | net16 | net32
  deriving DecidableEq

/-- Byte width of each scalar format (struct.calcsize). -/
def fmtWidth : ScalarFmt → Nat
  | .u8 => 1
  | .u16 => 2
  | .u32 => 4
  | .i32 => 4
  | .u64 => 8
  | .net16 => 2
  | .net32 => 4

/-- Whether the format is big-endian on the wire (`!` formats). -/
def fmtBigEndian : ScalarFmt → Bool
  | .net16 => true
  | .net32 => true
  | _ => false

/-- StructFmtType.pack: `struct.pack(fmt, val)`.  Fails (struct.error)
when the value is out of range for the format. -/
def scalarPack (f : ScalarFmt) (v : Int) : Option (List Nat) :=
  let w := fmtWidth f
  match f with
  | .i32 =>
    if -(2 ^ 31) ≤ v ∧ v < 2 ^ 31 then
      some (encodeLE 4 ((v % (2 ^ 32)).toNat))
    else none
  | _ =>
    if 0 ≤ v ∧ v < (2 ^ (8 * w) : Nat) then
      let bs := encodeLE w v.toNat
      some (if fmtBigEndian f then bs.reverse else bs)
    else none

/-- StructFmtType.unpack: `struct.unpack(fmt, data)[0]`.  Fails
(struct.error) unless the buffer length equals the format width. -/
def scalarUnpack (f : ScalarFmt) (data : List Nat) : Option Int :=
  if data.length = fmtWidth f then
    let bs := if fmtBigEndian f then data.reverse else data
    let n := decodeLE bs
    match f with
    | .i32 => some (if n < 2 ^ 31 then (n : Int) else (n : Int) - 2 ^ 32)
    | _ => some (n : Int)
  else none

mutual
/-- A decoded attribute value: scalar int, binary blob, text (byte
codes), the `None` stored for `IgnoreType`, or a nested attribute
list instance. -/
inductive NlVal where
  | vint (i : Int)
  | vbytes (b : List Nat)
  | vstr (s : List Nat)
  | vnone
  | vlist (attrs : AttrL)
  deriving DecidableEq

/-- The `attrs` dict of an attribute-list instance: an association
list of 16-bit keys to values, in insertion order. -/
inductive AttrL where
  | anil
  | acons (k : Nat) (v : NlVal) (rest : AttrL)
  deriving DecidableEq
end

mutual
/-- A payload codec as passed to `create_attr_list_type`: one of the
scalar `StructFmtType`s, `BinaryType`, `NulStringType`, `IgnoreType`,
the `RecursiveSelf` marker, or a nested attribute-list type. -/
inductive NlPacker where
  | scalar (f : ScalarFmt)
  | binary
  | nulString
  | ignore
  | recursiveSelf
  | nested (s : Schema)
  deriving DecidableEq

/-- An attribute-list schema: the ordered field packers declared by
`create_attr_list_type`; field `i` (0-based) gets key `i + 1`. -/
inductive Schema where
  | snil
  | scons (p : NlPacker) (rest : Schema)
  deriving DecidableEq
end

/-- `key_to_packer[k]`: keys are 1-based positions; `none` models the
KeyError raised for an undeclared key. -/
def lookupPacker : Schema → Nat → Option NlPacker
  | .snil, _ => none
  | .scons p rest, k =>
    if k = 1 then some p
    else if k = 0 then none
    else lookupPacker rest (k - 1)

/-- `self.attrs[key] = value` on a dict: replace the binding in place
if the key is present, else append it. -/
def setA : AttrL → Nat → NlVal → AttrL
  | .anil, k, v => .acons k v .anil
  | .acons k0 v0 rest, k, v =>
    if k0 = k then .acons k0 v rest else .acons k0 v0 (setA rest k v)

/-- Dict lookup `self.attrs[key]`. -/
def lookupA : AttrL → Nat → Option NlVal
  | .anil, _ => none
  | .acons k0 v0 rest, k => if k0 = k then some v0 else lookupA rest k

/-- The keys of an instance, in order. -/
def keysOf : AttrL → List Nat
  | .anil => []
  | .acons k _ rest => k :: keysOf rest

/-- List concatenation on instances. -/
def appendA : AttrL → AttrL → AttrL
  | .anil, b => b
  | .acons k v rest, b => .acons k v (appendA rest b)

mutual
/-- Keys are pairwise distinct at every nesting level, as holds for
every instance built through the dict-backed `set`. -/
def attrNodup : AttrL → Bool
  | .anil => true
  | .acons k v rest => !(keysOf rest).contains k && valNodup v && attrNodup rest

/-- Nested companion of `attrNodup`. -/
def valNodup : NlVal → Bool
  | .vlist al => attrNodup al
  | _ => true
end

/-- Padding emitted after a payload of length `n`:
`(4 - (len(x) % 4)) & 0x3` zero bytes. -/
def padLen (n : Nat) : Nat := (4 - n % 4) &&& 3

/-- `(alen + 3) & ~3` of the source: `~3` clears the two low bits,
rounding `alen + 3` down to a multiple of 4. -/
def align4 (alen : Nat) : Nat := (alen + 3) / 4 * 4

mutual
/-- AttrListType.pack.  For each set field: serialise the payload via
its codec (`RecursiveSelf` resolves to the enclosing schema), emit the
native-endian `=HH` header `(len(x) + 4, key)` — which fails when
either word exceeds 16 bits and never ORs any nested-flag bit in —
then the payload and `(4 - (len(x) % 4)) & 0x3` zero bytes.  The fuel
only bounds nesting depth; the source recursion is finite for the
finite values modelled here. -/
def packAttrList : Nat → Schema → AttrL → Option (List Nat)
  | 0, _, _ => none
  | _ + 1, _, .anil => some []
  | fuel + 1, s, .acons k v rest =>
    match lookupPacker s k with
    | none => none
    | some pkr =>
      match packPayload fuel s pkr v, packAttrList fuel s rest with
      | some x, some q =>
        if x.length + 4 < 65536 ∧ k < 65536 then
          some (encodeLE 2 (x.length + 4) ++ encodeLE 2 k ++ x ++
                List.replicate (padLen x.length) 0 ++ q)
        else none
      | _, _ => none

/-- Payload serialisation for one field.  A value whose shape does not
match the codec raises in Python (TypeError, or AttributeError for
`IgnoreType`, which has no `pack`); both are `none` here. -/
def packPayload : Nat → Schema → NlPacker → NlVal → Option (List Nat)
  | 0, _, _, _ => none
  | _ + 1, _, .scalar f, .vint i => scalarPack f i
  | _ + 1, _, .binary, .vbytes b => some b
  | _ + 1, _, .nulString, .vstr str => some (str ++ [0])
  | fuel + 1, _, .nested s2, .vlist al => packAttrList fuel s2 al
  | fuel + 1, s, .recursiveSelf, .vlist al => packAttrList fuel s al
  | _ + 1, _, _, _ => none
end

mutual
/-- AttrListType.unpack's while loop.  `acc` is the instance being
filled.  Reads the `=HH` header (struct.error when fewer than 4 bytes
remain), masks the length with 0x7fff, slices `data[4:alen]` (Python
slices clamp), decodes via the codec for the key (KeyError on an
undeclared key), stores with `set`, advances by `(alen + 3) & ~3`.
No check that `alen ≥ 4` is performed by the source.  Fuel exhaustion
(`none`) models the loop running forever, which happens iff the
masked length is 0 so that no progress is made. -/
def unpackAttrsAux : Nat → Schema → AttrL → List Nat → Option AttrL
  | 0, _, _, _ => none
  | _ + 1, _, acc, [] => some acc
  | fuel + 1, s, acc, data@(_ :: _) =>
    if data.length < 4 then none
    else
      let alen := decodeLE (data.take 2) &&& 0x7fff
      let k := decodeLE ((data.drop 2).take 2)
      match lookupPacker s k with
      | none => none
      | some pkr =>
        match unpackPayloadAux fuel s pkr ((data.take alen).drop 4) with
        | none => none
        | some v => unpackAttrsAux fuel s (setA acc k v) (data.drop (align4 alen))

/-- Payload deserialisation for one field.  `NulStringType.unpack`
asserts the last byte is NUL; `IgnoreType.unpack` returns `None`. -/
def unpackPayloadAux : Nat → Schema → NlPacker → List Nat → Option NlVal
  | 0, _, _, _ => none
  | _ + 1, _, .scalar f, payload => (scalarUnpack f payload).map .vint
  | _ + 1, _, .binary, payload => some (.vbytes payload)
  | _ + 1, _, .nulString, payload =>
    if payload.getLast? = some 0 then some (.vstr payload.dropLast) else none
  | _ + 1, _, .ignore, _ => some .vnone
  | fuel + 1, _, .nested s2, payload =>
    (unpackAttrsAux fuel s2 .anil payload).map .vlist
  | fuel + 1, s, .recursiveSelf, payload =>
    (unpackAttrsAux fuel s .anil payload).map .vlist
end

/-- AttrListType.unpack: run the loop on a fresh instance.  Fuel
`data.length + 1` covers every terminating run of the source loop. -/
def attrListUnpack (s : Schema) (data : List Nat) : Option AttrL :=
  unpackAttrsAux (data.length + 1) s .anil data

example : packAttrList 3 (.scons (.scalar .u8) .snil) (.acons 1 (.vint 7) .anil) =
    some [5, 0, 1, 0, 7, 0, 0, 0] := by decide

example : attrListUnpack (.scons (.scalar .u8) .snil) [5, 0, 1, 0, 7, 0, 0, 0] =
    some (.acons 1 (.vint 7) .anil) := by decide

/-- The kind of a message decoded by `deserialize_message`: an
`ErrorMessage` (netlink type 2, holding the signed error field), a
`DoneMessage` (type 3), or an ordinary genl message (payload left
opaque, tagged by an id). -/
inductive MsgKind where
  | errK (code : Int)
  | doneK
  | dataK (tag : Nat)
  deriving DecidableEq

/-- A decoded message as seen by `NetlinkSocket._recv`: its netlink
header flags plus its decoded form. -/
structure RecvMsg where
  flags : Nat
  kind : MsgKind
  deriving DecidableEq

/-- ErrorMessage test, `isinstance(message, ErrorMessage)`. -/
def isErrMsg (m : RecvMsg) : Bool :=
  match m.kind with
  | .errK _ => true
  | _ => false

/-- The error field of an ErrorMessage (0 on other kinds). -/
def errCodeOf (m : RecvMsg) : Int :=
  match m.kind with
  | .errK c => c
  | _ => 0

/-- NetlinkSocket._recv's loop over the stream of frames the socket
yields, with `acc` the `messages` list.  Datagram boundaries are
irrelevant to the control flow and are not modelled.  An exhausted
stream leaves the source blocked in `sock.recv` forever: `none`. -/
def recvAux : List RecvMsg → List RecvMsg → Option (List RecvMsg)
  | _, [] => none
  | acc, m :: rest =>
    if acc.length = 0 ∧ m.flags &&& 0x2 = 0 then some [m]
    else if m.kind = .doneK then some acc
    else recvAux (acc ++ [m]) rest

/-- NetlinkSocket._recv on a frame stream. -/
def recvModel (frames : List RecvMsg) : Option (List RecvMsg) :=
  recvAux [] frames

/-- Spec-side description of the multi-part rule: accumulate messages
until a done sentinel arrives, excluding the sentinel; block (none)
if it never arrives. -/
def takeUntilDone : List RecvMsg → Option (List RecvMsg)
  | [] => none
  | m :: rest =>
    if m.kind = .doneK then some []
    else (takeUntilDone rest).map (m :: ·)

/-- The scan loop of NetlinkSocket.query: raise RuntimeError at the
first ErrorMessage (whatever its error field), returning its code. -/
def queryRaise : List RecvMsg → Option Int
  | [] => none
  | m :: rest =>
    match m.kind with
    | .errK c => some c
    | _ => queryRaise rest

/-- NetlinkSocket.query after `_recv` produced `msgs`: raise
(RuntimeError carrying the first ErrorMessage's description) or
return the received list unchanged.  The lock and the send are I/O
and are not modelled. -/
def queryModel (msgs : List RecvMsg) : Except Int (List RecvMsg) :=
  match queryRaise msgs with
  | some c => .error c
  | none => .ok msgs

/-- Outcome of NetlinkSocket.execute: normal return, an
AssertionError from one of its two asserts, or `OSError(eno)`. -/
inductive ExecResult where
  | okE
  | assertFail
  | osError (eno : Int)
  deriving DecidableEq

/-- NetlinkSocket.execute after `_recv` produced `msgs`:
`assert len(messages) == 1`, `assert isinstance(messages[0],
ErrorMessage)`, then raise `OSError(-error)` when the error field is
non-zero. -/
def executeModel (msgs : List RecvMsg) : ExecResult :=
  if msgs.length ≠ 1 then .assertFail
  else
    match msgs with
    | [m] =>
      match m.kind with
      | .errK c => if c ≠ 0 then .osError (-c) else .okE
      | _ => .assertFail
    | _ => .assertFail

/-- A message class's `family` attribute: a numeric id or a name
still to be resolved at bootstrap. -/
inductive Family where
  | byId (n : Nat)
  | byName (s : List Nat)
  deriving DecidableEq

/-- A genl message class as the registry sees it: its identity (each
`create_genl_message_type` call makes a fresh class object) and its
`family` attribute. -/
structure MsgTypeDecl where
  clsId : Nat
  family : Family
  deriving DecidableEq

/-- The module-level registry: `__cmd_unpack_map` (numeric family id
to class) and `__to_lookup_on_init` (classes registered by name). -/
structure Registry where
  cmdUnpackMap : List (Nat × Nat)
  toLookupOnInit : List MsgTypeDecl
  deriving DecidableEq

/-- `msg_class.family in __cmd_unpack_map`: dict keys are ints, so a
string family name is never a member. -/
def famInMap (reg : Registry) (f : Family) : Bool :=
  match f with
  | .byId n => reg.cmdUnpackMap.any (fun p => p.1 = n)
  | .byName _ => false

/-- The `@` decorator applied by `create_genl_message_type`.  When the
numeric family id is already registered, or the class object is
already pending, it returns `None` without raising and without
touching the registry; otherwise it registers and returns the class. -/
def registerMsgType (reg : Registry) (c : MsgTypeDecl) :
    Registry × Option MsgTypeDecl :=
  if famInMap reg c.family then (reg, none)
  else if reg.toLookupOnInit.contains c then (reg, none)
  else
    match c.family with
    | .byName _ =>
      (Registry.mk reg.cmdUnpackMap (c :: reg.toLookupOnInit), some c)
    | .byId n =>
      (Registry.mk ((n, c.clsId) :: reg.cmdUnpackMap) reg.toLookupOnInit, some c)

/-- Uppercase one ASCII byte, as `str.upper` does per character. -/
def upperByte (c : Nat) : Nat := if 97 ≤ c ∧ c ≤ 122 then c - 32 else c

/-- `name.upper()` on a byte string. -/
def upperStr (s : List Nat) : List Nat := s.map upperByte

/-- The `name_to_key` dict built by `create_attr_list_type`: field `i`
is stored under `name.upper()` with key `i + 1`; a later duplicate
name overwrites an earlier one, as dict assignment does. -/
def nameToKeyAux : List (List Nat) → Nat → List Nat → Option Nat
  | [], _, _ => none
  | n :: rest, i, q =>
    match nameToKeyAux rest (i + 1) q with
    | some k => some k
    | none => if upperStr n = q then some (i + 1) else none

/-- Lookup `name_to_key[key.upper()]`. -/
def nameToKey (names : List (List Nat)) (q : List Nat) : Option Nat :=
  nameToKeyAux names 0 (upperStr q)

/-- A key argument to `get`/`set`: an int is used as-is; anything else
goes through the name table. -/
inductive GetKey where
  | num (n : Nat)
  | nameK (s : List Nat)

/-- AttrListType.get: inside one `try`, resolve a non-int key through
`name_to_key` and then index `self.attrs`; a KeyError from either
step is answered with the default when one was supplied and re-raised
otherwise. -/
def attrGet (names : List (List Nat)) (attrs : AttrL) (k : GetKey)
    (dflt : Option NlVal) : Except Unit NlVal :=
  let looked : Option NlVal :=
    match k with
    | .num n => lookupA attrs n
    | .nameK s =>
      match nameToKey names s with
      | none => none
      | some key => lookupA attrs key
  match looked with
  | some v => .ok v
  | none =>
    match dflt with
    | some d => .ok d
    | none => .error ()

/-- AttrListType.set: a non-int key must resolve through
`name_to_key` (KeyError otherwise, whatever the value); the binding
is then stored unconditionally. -/
def attrSet (names : List (List Nat)) (attrs : AttrL) (k : GetKey)
    (v : NlVal) : Except Unit AttrL :=
  match k with
  | .num n => .ok (setA attrs n v)
  | .nameK s =>
    match nameToKey names s with
    | none => .error ()
    | some key => .ok (setA attrs key v)

/-- Parse one dotted-quad octet the way `inet_pton(AF_INET, ·)` does:
1–3 decimal digits, value at most 255, no leading zero. -/
def parseOctet (cs : List Nat) : Option Nat :=
  if cs = [] ∨ 3 < cs.length then none
  else if cs.any (fun c => c < 48 ∨ 57 < c) then none
  else if 1 < cs.length ∧ cs.head? = some 48 then none
  else
    let v := cs.foldl (fun a c => a * 10 + (c - 48)) 0
    if v ≤ 255 then some v else none

/-- Split a byte string on a separator byte. -/
def splitOnByte (sep : Nat) : List Nat → List (List Nat)
  | [] => [[]]
  | c :: rest =>
    let r := splitOnByte sep rest
    if c = sep then [] :: r
    else
      match r with
      | [] => [[c]]
      | h :: t => (c :: h) :: t

/-- Model of `socket.inet_pton(AF_INET, s)`: four dotted octets. -/
def inetPtonV4 (s : List Nat) : Option (List Nat) :=
  match (splitOnByte 46 s).mapM parseOctet with
  | some [a, b, c, d] => some [a, b, c, d]
  | _ => none

/-- `_to_af`: AF_INET6 (10) when the string contains a colon, else
AF_INET (2). -/
def toAf (s : List Nat) : Nat := if s.contains 58 then 10 else 2

/-- `_validate_ip`: True iff `inet_pton(_to_af(ip), ip)` does not
raise.  IPv6 parsing is not modelled (no claim exercises an IPv6
address); `inet_pton(AF_INET6, ·)` is treated as failing. -/
def validateIp (s : List Nat) : Bool :=
  if s.contains 58 then false else (inetPtonV4 s).isSome

/-- `_to_af_union`: the address family and the parsed address padded
with NULs to 16 bytes (`ljust(16, b'\0')`).  `none` models the
socket.error raised on an unparsable address. -/
def toAfUnion (s : List Nat) : Option (Nat × List Nat) :=
  if s.contains 58 then none
  else (inetPtonV4 s).map (fun q => (2, q ++ List.replicate 12 0))

/-- The dict argument of `Dest.__init__`.  A `none` field models a
key that is absent (for ip/weight/port this coincides with an
explicitly stored `None`, which `d.get` returns identically). -/
structure DestDict where
  ip : Option (List Nat)
  weight : Option Int
  port : Option Int
  fwd_method : Option Int
  deriving DecidableEq

/-- An `ipvs.Dest` object: the four fields the constructor stores.
A `none` weight models a `None` (or otherwise non-int) weight. -/
structure PyDest where
  ip_ : Option (List Nat)
  weight_ : Option Int
  port_ : Option Int
  fwd_method_ : Int
  deriving DecidableEq

/-- Dest.__init__(d, validate=False): stores `d.get('ip')`,
`d.get('weight')`, `d.get('port')` and `d.get('fwd_method',
IPVS_TUNNELING)` (default 2).  The `validate` parameter is accepted
and ignored by the source, and the body cannot raise, so the result
is a plain `PyDest`. -/
def destInit (d : DestDict) (validate : Bool) : PyDest :=
  PyDest.mk d.ip d.weight d.port (d.fwd_method.getD 2)

/-- Dest.validate: `assert _validate_ip(ip_)`, `assert
isinstance(weight_, int)`, `assert weight_ >= -1`, `assert
fwd_method_ in IPVS_METHODS` ({0, 1, 2, 3}).  `false` means one of
the asserts raises (a `None` ip makes `_to_af` raise a TypeError,
also folded into `false`). -/
def destValidate (d : PyDest) : Bool :=
  match d.ip_ with
  | none => false
  | some ip =>
    validateIp ip &&
    (match d.weight_ with
     | none => false
     | some w => decide (-1 ≤ w)) &&
    [0, 1, 2, 3].contains d.fwd_method_

/-- Dest.to_dict: the projection onto the `ip` and `weight` keys. -/
def destToDict (d : PyDest) : Option (List Nat) × Option Int :=
  (d.ip_, d.weight_)

/-- An arbitrary Python value compared against a Dest: either another
Dest or something that is not a Dest. -/
inductive PyObj where
  | destO (d : PyDest)
  | otherO (tag : Nat)

/-- Dest.__eq__: `isinstance(other, Dest) and self.to_dict() ==
other.to_dict()`. -/
def destEqPy (self : PyDest) (other : PyObj) : Bool :=
  match other with
  | .destO o => decide (destToDict self = destToDict o)
  | .otherO _ => false

/-- Dest.__ne__: `not self.__eq__(other)`. -/
def destNePy (self : PyDest) (other : PyObj) : Bool :=
  !destEqPy self other

/-- The dest attribute list built by `IpvsClient.__modify_dest` for
`add_dest`/`update_dest`/`del_dest`, keyed per `IpvsDestAttrList`
(ADDR=1, PORT=2, FWD_METHOD=3, WEIGHT=4, U_THRESH=5, L_THRESH=6,
ADDR_FAMILY=11).  `rport or port` makes a 0 or absent rport fall back
to the service port.  Keyword arguments whose value is None are
skipped by `AttrListType.__init__`.  `none` models the socket.error
raised while parsing an address; no other argument is validated
before `execute` performs the I/O. -/
def modifyDestAttrs (vip : List Nat) (port : Int) (rip : List Nat)
    (rport : Option Int) (weight : Option Int) (fwd : Option Int)
    (thresh : Option Int) : Option AttrL :=
  match toAfUnion vip, toAfUnion rip with
  | some _, some (raf, raddr) =>
    let rp := match rport with
      | none => port
      | some r => if r = 0 then port else r
    let base : AttrL :=
      .acons 11 (.vint (raf : Int)) (.acons 1 (.vbytes raddr)
        (.acons 2 (.vint rp) .anil))
    let withW : AttrL := match weight with
      | none => base
      | some w => appendA base (.acons 4 (.vint w) .anil)
    let withF : AttrL := match fwd with
      | none => withW
      | some f => appendA withW (.acons 3 (.vint f) .anil)
    some (match thresh with
      | none => withF
      | some t => appendA withF (.acons 6 (.vint t) (.acons 5 (.vint t) .anil)))
  | _, _ => none

/-- The accumulate phase of `_recv`: once `messages` is non-empty the
first-message early return is dead and the loop collects until a done
sentinel. -/
theorem recvAux_accumulating (frames : List RecvMsg) :
    ∀ acc : List RecvMsg, acc ≠ [] →
      recvAux acc frames = (takeUntilDone frames).map (acc ++ ·) := by
  induction frames with
  | nil => intro acc _; simp [recvAux, takeUntilDone]
  | cons m rest ih =>
    intro acc hacc
    have hlen : acc.length ≠ 0 := by
      intro h
      exact hacc (List.length_eq_zero.mp h)
    by_cases hdone : m.kind = .doneK
    · simp [recvAux, takeUntilDone, hlen, hdone]
    · simp only [recvAux, takeUntilDone, hlen, hdone, if_neg, false_and, if_false]
      rw [ih (acc ++ [m]) (by simp)]
      cases takeUntilDone rest with
      | none => simp
      | some l => simp

/-- C6: `_recv` returns `[m]` as soon as the first decoded message has
the MULTI flag (mask 0x2) clear; otherwise it accumulates decoded
messages until a `DoneMessage` arrives and returns them with the done
sentinel excluded (blocking forever, `none`, if no sentinel comes). -/
theorem recv_single_or_multipart (m : RecvMsg) (rest : List RecvMsg) :
    recvModel (m :: rest) =
      if m.flags &&& 0x2 = 0 then some [m] else takeUntilDone (m :: rest) := by
  by_cases hm : m.flags &&& 0x2 = 0
  · simp [recvModel, recvAux, hm]
  · by_cases hdone : m.kind = .doneK
    · simp [recvModel, recvAux, takeUntilDone, hm, hdone]
    · simp only [recvModel, recvAux, List.length_nil, hm, and_false, if_false,
        hdone, if_neg, true_and, takeUntilDone, if_true]
      rw [show ([] : List RecvMsg) ++ [m] = [m] from rfl,
        recvAux_accumulating rest [m] (by simp)]
      cases takeUntilDone rest with
      | none => simp [hm]
      | some l => simp [hm]

/-- C7: `execute` hits an AssertionError unless exactly one message
came back and that message is an `ErrorMessage`; a zero error field
returns normally and a non-zero one raises `OSError` with the negated
error as the POSIX code. -/
theorem execute_requires_single_error_ack (msgs : List RecvMsg) :
    (msgs.length ≠ 1 → executeModel msgs = .assertFail)
  ∧ (∀ m : RecvMsg, isErrMsg m = false → executeModel [m] = .assertFail)
  ∧ (∀ f : Nat, executeModel [RecvMsg.mk f (.errK 0)] = .okE)
  ∧ (∀ f : Nat, ∀ c : Int, c ≠ 0 →
      executeModel [RecvMsg.mk f (.errK c)] = .osError (-c)) := by
  refine ⟨fun h => by simp [executeModel, h], fun m hm => ?_, fun f => by simp [executeModel],
    fun f c hc => by simp [executeModel, hc]⟩
  cases m with
  | mk f k =>
    cases k with
    | errK c => simp [isErrMsg] at hm
    | doneK => simp [executeModel]
    | dataK t => simp [executeModel]

/-- Witness for C7 at concrete inputs. -/
theorem execute_requires_single_error_ack_witness :
    executeModel [] = .assertFail
  ∧ executeModel [RecvMsg.mk 2 (.dataK 0)] = .assertFail
  ∧ executeModel [RecvMsg.mk 2 (.errK 0)] = .okE
  ∧ executeModel [RecvMsg.mk 2 (.errK (-2))] = .osError 2 :=
  ⟨(execute_requires_single_error_ack []).1 (by decide),
   (execute_requires_single_error_ack []).2.1 (RecvMsg.mk 2 (.dataK 0)) (by decide),
   (execute_requires_single_error_ack []).2.2.1 2,
   by simpa using (execute_requires_single_error_ack []).2.2.2 2 (-2) (by decide)⟩

/-- C9: `Dest.__eq__` goes through `to_dict`, which keeps only `ip`
and `weight`; two Dests agreeing there are equal whatever their port
or forwarding method, a Dest never equals a non-Dest, and `!=` is the
boolean negation of `==`. -/
theorem dest_eq_projects_ip_weight (a b : PyDest) (t : Nat)
    (hip : a.ip_ = b.ip_) (hw : a.weight_ = b.weight_) :
    destEqPy a (.destO b) = true
  ∧ destNePy a (.destO b) = false
  ∧ destEqPy a (.otherO t) = false
  ∧ destNePy a (.otherO t) = true := by
  simp [destEqPy, destNePy, destToDict, hip, hw]

/-- Witness for C9: equal ip/weight, different port and forwarding
method. -/
theorem dest_eq_projects_ip_weight_witness :
    (PyDest.mk (some [49]) (some 3) (some 80) 2).port_ ≠
      (PyDest.mk (some [49]) (some 3) (some 8080) 0).port_
  ∧ (PyDest.mk (some [49]) (some 3) (some 80) 2).fwd_method_ ≠
      (PyDest.mk (some [49]) (some 3) (some 8080) 0).fwd_method_
  ∧ destEqPy (PyDest.mk (some [49]) (some 3) (some 80) 2)
      (.destO (PyDest.mk (some [49]) (some 3) (some 8080) 0)) = true
  ∧ destEqPy (PyDest.mk (some [49]) (some 3) (some 80) 2) (.otherO 7) = false :=
  ⟨by decide, by decide,
   (dest_eq_projects_ip_weight (PyDest.mk (some [49]) (some 3) (some 80) 2)
     (PyDest.mk (some [49]) (some 3) (some 8080) 0) 7 rfl rfl).1,
   (dest_eq_projects_ip_weight (PyDest.mk (some [49]) (some 3) (some 80) 2)
     (PyDest.mk (some [49]) (some 3) (some 8080) 0) 7 rfl rfl).2.2.1⟩

/-- C1 (amended): `query` raises at the first `ErrorMessage` in the
received list — whatever its error field, zero included — carrying
that message's code, and returns the list unchanged only when no
ErrorMessage is present at all. -/
theorem query_raises_on_any_error_message (msgs : List RecvMsg) :
    queryModel msgs =
      match msgs.find? isErrMsg with
      | some m => .error (errCodeOf m)
      | none => .ok msgs := by
  have h : ∀ l : List RecvMsg, queryRaise l = (l.find? isErrMsg).map errCodeOf := by
    intro l
    induction l with
    | nil => simp [queryRaise]
    | cons m rest ih =>
      cases hk : m.kind with
      | errK c =>
        have hm : isErrMsg m = true := by simp [isErrMsg, hk]
        simp [queryRaise, hk, List.find?, hm, errCodeOf]
      | doneK =>
        have hm : isErrMsg m = false := by simp [isErrMsg, hk]
        simp [queryRaise, hk, List.find?, hm, ih]
      | dataK t =>
        have hm : isErrMsg m = false := by simp [isErrMsg, hk]
        simp [queryRaise, hk, List.find?, hm, ih]
  rw [queryModel, h msgs]
  cases msgs.find? isErrMsg with
  | none => rfl
  | some m => rfl

/-- C1 counterexample: a reply list holding a single ErrorMessage with
error 0 is raised (RuntimeError), not returned, contradicting the
claim that such a list comes back unchanged. -/
theorem query_zero_error_raised_counterexample :
    queryModel [RecvMsg.mk 2 (.errK 0)] = .error 0
  ∧ queryModel [RecvMsg.mk 2 (.errK 0)] ≠ .ok [RecvMsg.mk 2 (.errK 0)] :=
  ⟨rfl, fun h => Except.noConfusion h⟩

/-- C2: evaluating the registration decorator at a duplicate numeric
family id: it returns `None` and leaves the registry untouched — no
exception is raised, although the repository's own tests
(`netlink_tests.test_assert_on_message_redefinition` and
`test_new_message_by_name`) expect an AssertionError here — and a
second registration under an already-pending family name is likewise
accepted silently. -/
theorem register_duplicate_family_silently_ignored :
    registerMsgType (Registry.mk [(12345, 1)] []) (MsgTypeDecl.mk 2 (.byId 12345)) =
      (Registry.mk [(12345, 1)] [], none)
  ∧ registerMsgType (Registry.mk [] [MsgTypeDecl.mk 3 (.byName [66, 65, 82])])
      (MsgTypeDecl.mk 4 (.byName [66, 65, 82])) =
      (Registry.mk []
        [MsgTypeDecl.mk 4 (.byName [66, 65, 82]),
         MsgTypeDecl.mk 3 (.byName [66, 65, 82])],
       some (MsgTypeDecl.mk 4 (.byName [66, 65, 82]))) := by
  constructor
  · rfl
  · rfl

/-- C10: `get` with a default returns the default both when the
resolved key is unset and when the string name is not declared at all
(both KeyErrors land in the same handler); `get` without a default
fails in either situation; `set` with an undeclared string name fails
whatever the value. -/
theorem get_default_absorbs_unknown_name (names : List (List Nat))
    (attrs : AttrL) (s : List Nat) (n : Nat) (d v : NlVal) :
    (nameToKey names s = none →
      attrGet names attrs (.nameK s) (some d) = .ok d)
  ∧ (∀ key, nameToKey names s = some key → lookupA attrs key = none →
      attrGet names attrs (.nameK s) (some d) = .ok d)
  ∧ (lookupA attrs n = none →
      attrGet names attrs (.num n) (some d) = .ok d)
  ∧ (nameToKey names s = none →
      attrGet names attrs (.nameK s) none = .error ())
  ∧ (∀ key, nameToKey names s = some key → lookupA attrs key = none →
      attrGet names attrs (.nameK s) none = .error ())
  ∧ (nameToKey names s = none →
      attrSet names attrs (.nameK s) v = .error ()) := by
  refine ⟨fun h => ?_, fun key h1 h2 => ?_, fun h => ?_, fun h => ?_,
    fun key h1 h2 => ?_, fun h => ?_⟩ <;>
    simp [attrGet, attrSet, *]

/-- Witness for C10: one declared field FOO, empty instance; BAR is
undeclared, FOO resolves but is unset. -/
theorem get_default_absorbs_unknown_name_witness :
    nameToKey [[70, 79, 79]] [66, 65, 82] = none
  ∧ nameToKey [[70, 79, 79]] [70, 79, 79] = some 1
  ∧ attrGet [[70, 79, 79]] .anil (.nameK [66, 65, 82]) (some (.vint 5)) = .ok (.vint 5)
  ∧ attrGet [[70, 79, 79]] .anil (.nameK [70, 79, 79]) (some (.vint 5)) = .ok (.vint 5)
  ∧ attrGet [[70, 79, 79]] .anil (.nameK [66, 65, 82]) none = .error ()
  ∧ attrSet [[70, 79, 79]] .anil (.nameK [66, 65, 82]) (.vint 9) = .error () :=
  ⟨by decide, by decide,
   (get_default_absorbs_unknown_name [[70, 79, 79]] .anil [66, 65, 82] 0
     (.vint 5) (.vint 9)).1 (by decide),
   (get_default_absorbs_unknown_name [[70, 79, 79]] .anil [70, 79, 79] 0
     (.vint 5) (.vint 9)).2.1 1 (by decide) (by decide),
   (get_default_absorbs_unknown_name [[70, 79, 79]] .anil [66, 65, 82] 0
     (.vint 5) (.vint 9)).2.2.2.1 (by decide),
   (get_default_absorbs_unknown_name [[70, 79, 79]] .anil [66, 65, 82] 0
     (.vint 5) (.vint 9)).2.2.2.2.2 (by decide)⟩

/-- C8: evaluating the code at the claim's failing input.  The
`validate` flag of `Dest.__init__` has no effect at all (the source
never calls `self.validate()`, unlike `Service.__init__`, although
`Dest.from_attr_list` passes `validate=True`); a Dest with weight −5
and forwarding method 10 is constructed without any exception even
with `validate=True`, while an explicit `validate()` call on it
asserts; and `__modify_dest` (add_dest's path, here with valid IPs)
builds and hands to `execute` a request carrying the invalid weight
and forwarding method, so the violation reaches I/O unraised. -/
theorem dest_validate_flag_ignored :
    (∀ (d : DestDict) (b1 b2 : Bool), destInit d b1 = destInit d b2)
  ∧ destInit (DestDict.mk (some [49, 46, 49, 46, 49, 46, 49]) (some (-5)) none (some 10))
      true =
      PyDest.mk (some [49, 46, 49, 46, 49, 46, 49]) (some (-5)) none 10
  ∧ destValidate
      (destInit (DestDict.mk (some [49, 46, 49, 46, 49, 46, 49]) (some (-5)) none (some 10))
        true) = false
  ∧ modifyDestAttrs [49, 46, 49, 46, 49, 46, 49] 80 [50, 46, 50, 46, 50, 46, 49]
      none (some (-5)) (some 10) (some 0) =
      some (.acons 11 (.vint 2)
        (.acons 1 (.vbytes [2, 2, 2, 1, 0, 0, 0, 0, 0, 0, 0, 0, 0, 0, 0, 0])
          (.acons 2 (.vint 80)
            (.acons 4 (.vint (-5))
              (.acons 3 (.vint 10)
                (.acons 6 (.vint 0) (.acons 5 (.vint 0) .anil))))))) :=
  ⟨fun d b1 b2 => rfl, by decide, by decide, by decide⟩

/-- C5 (amended): the unpack walk step by step.  The empty buffer
stops; 1–3 leftover bytes make the `=HH` read fail; otherwise the
length word is masked with 0x7fff, an undeclared 16-bit key fails,
the payload slice `data[4:alen]` is decoded (clamped, with no check
that `alen ≥ 4`), and the walk advances by `(alen + 3) & ~3`; a
masked length word of 0 advances by nothing, so the loop never
terminates (none for every fuel). -/
theorem unpack_walk_spec (s : Schema) (fuel : Nat) (acc : AttrL) :
    unpackAttrsAux (fuel + 1) s acc [] = some acc
  ∧ (∀ b0, unpackAttrsAux (fuel + 1) s acc [b0] = none)
  ∧ (∀ b0 b1, unpackAttrsAux (fuel + 1) s acc [b0, b1] = none)
  ∧ (∀ b0 b1 b2, unpackAttrsAux (fuel + 1) s acc [b0, b1, b2] = none)
  ∧ (∀ b0 b1 b2 b3 rest,
      unpackAttrsAux (fuel + 1) s acc (b0 :: b1 :: b2 :: b3 :: rest) =
        match lookupPacker s (b2 + 256 * b3) with
        | none => none
        | some pkr =>
          match unpackPayloadAux fuel s pkr
              (((b0 :: b1 :: b2 :: b3 :: rest).take
                ((b0 + 256 * b1) &&& 0x7fff)).drop 4) with
          | none => none
          | some v =>
            unpackAttrsAux fuel s (setA acc (b2 + 256 * b3) v)
              ((b0 :: b1 :: b2 :: b3 :: rest).drop
                ((((b0 + 256 * b1) &&& 0x7fff) + 3) / 4 * 4)))
  ∧ (∀ (f : Nat) (acc2 : AttrL) (b2 b3 : Nat) (rest : List Nat),
      unpackAttrsAux f s acc2 (0 :: 0 :: b2 :: b3 :: rest) = none) := by
  refine ⟨rfl, fun b0 => rfl, fun b0 b1 => rfl, fun b0 b1 b2 => rfl,
    fun b0 b1 b2 b3 rest => ?_, fun f => ?_⟩
  · have hlen : ¬((b0 :: b1 :: b2 :: b3 :: rest).length < 4) := by
      simp
    simp only [unpackAttrsAux, hlen, if_false, List.take_succ_cons,
      List.take_zero, decodeLE, List.drop_succ_cons, List.drop_zero,
      align4, Nat.mul_zero, Nat.add_zero]
  · induction f with
    | zero => intro acc2 b2 b3 rest; rfl
    | succ f ih =>
      intro acc2 b2 b3 rest
      have hlen : ¬((0 :: 0 :: b2 :: b3 :: rest).length < 4) := by
        simp
      have hmask : ((0 : Nat) + 256 * 0) &&& 0x7fff = 0 := by decide
      simp only [unpackAttrsAux, hlen, if_false, List.take_succ_cons,
        List.take_zero, List.drop_nil, decodeLE, List.drop_succ_cons,
        List.drop_zero, align4, Nat.mul_zero, Nat.add_zero, hmask]
      cases lookupPacker s (b2 + 256 * b3) with
      | none => rfl
      | some pkr =>
        cases h : unpackPayloadAux f s pkr [] with
        | none => simp [h]
        | some v => simp [h, ih (setA acc2 (b2 + 256 * b3) v) b2 b3 rest]

/-- C5 counterexample: a header whose total-length word is 2 (< 4) is
not rejected — the clamped slice `data[4:2]` is empty, the walk
advances by 4 and the unpack succeeds, where the claim demands a
protocol error. -/
theorem unpack_short_length_accepted :
    attrListUnpack (.scons .binary .snil) [2, 0, 1, 0] =
      some (.acons 1 (.vbytes []) .anil) := by decide

theorem length_encodeLE (w v : Nat) : (encodeLE w v).length = w := by
  induction w generalizing v with
  | zero => rfl
  | succ w ih => simp [encodeLE, ih]

theorem decodeLE_encodeLE (w v : Nat) (h : v < 256 ^ w) :
    decodeLE (encodeLE w v) = v := by
  induction w generalizing v with
  | zero =>
    simp [encodeLE, decodeLE]
    omega
  | succ w ih =>
    have hdiv : v / 256 < 256 ^ w := by
      rw [Nat.div_lt_iff_lt_mul (by norm_num)]
      calc v < 256 ^ (w + 1) := h
        _ = 256 ^ w * 256 := by ring
    simp [encodeLE, decodeLE, ih (v / 256) hdiv]
    omega

theorem and_mask15 (a : Nat) (h : a < 32768) : a &&& 32767 = a := by
  have h2 : a &&& 32767 = a % 2 ^ 15 := by
    have := Nat.and_pow_two_sub_one_eq_mod a 15
    norm_num at this
    exact this
  rw [h2]
  omega

theorem padLen_mod (n : Nat) : padLen n = (4 - n % 4) % 4 := by
  have h : n % 4 = 0 ∨ n % 4 = 1 ∨ n % 4 = 2 ∨ n % 4 = 3 := by omega
  rcases h with h | h | h | h <;> simp [padLen, h] <;> decide

theorem pad_mod_four (n : Nat) : (n + padLen n) % 4 = 0 := by
  rw [padLen_mod]
  omega

theorem align4_tlv (L : Nat) : align4 (L + 4) = 4 + L + padLen L := by
  rw [padLen_mod]
  unfold align4
  omega

/-- Successful pack of a non-empty instance decomposes into the first
field's TLV followed by the pack of the remaining fields. -/
theorem pack_cons_decomp (fuel : Nat) (s : Schema) (k : Nat) (v : NlVal)
    (rest : AttrL) (p : List Nat)
    (hp : packAttrList (fuel + 1) s (.acons k v rest) = some p) :
    ∃ pkr x q, lookupPacker s k = some pkr
      ∧ packPayload fuel s pkr v = some x
      ∧ packAttrList fuel s rest = some q
      ∧ x.length + 4 < 65536 ∧ k < 65536
      ∧ p = encodeLE 2 (x.length + 4) ++ encodeLE 2 k ++ x ++
            List.replicate (padLen x.length) 0 ++ q := by
  simp only [packAttrList] at hp
  split at hp
  · exact absurd hp (by simp)
  · rename_i pkr hlp
    split at hp
    · rename_i x q hx hq
      split at hp
      · rename_i hc
        exact ⟨pkr, x, q, hlp, hx, hq, hc.1, hc.2,
          (Option.some_injective _ hp).symm⟩
      · exact absurd hp (by simp)
    · exact absurd hp (by simp)

/-- Bit 15 of a 16-bit word is set exactly when the word is at least
0x8000. -/
theorem testBit15_iff (a : Nat) (h : a < 65536) :
    a.testBit 15 = decide (32768 ≤ a) := by
  rw [Nat.testBit_to_div_mod]
  have : (2 : Nat) ^ 15 = 32768 := by norm_num
  rw [this]
  rcases Nat.lt_or_ge a 32768 with hlt | hge
  · have h0 : a / 32768 = 0 := Nat.div_eq_of_lt hlt
    simp [h0]
    omega
  · have h1 : a / 32768 = 1 := by omega
    simp [h1]
    omega

/-- C4 (amended): every emitted TLV is a native-endian 4-byte header
`(uint16 total_length = len(B) + 4, uint16 type = key)` followed by
the payload and `(4 − len(B) mod 4) mod 4` zero bytes; the first two
bytes decode back to `payload_len + 4`; no nested-flag is ORed into
the length word, so its bit 15 is set exactly when
`payload_len + 4 ≥ 0x8000`; and every pack output has length
divisible by 4. -/
theorem pack_header_and_alignment :
    (∀ (fuel : Nat) (s : Schema) (k : Nat) (v : NlVal) (rest : AttrL)
        (p : List Nat),
      packAttrList (fuel + 1) s (.acons k v rest) = some p →
      ∃ pkr x q, lookupPacker s k = some pkr
        ∧ packPayload fuel s pkr v = some x
        ∧ packAttrList fuel s rest = some q
        ∧ x.length + 4 < 65536 ∧ k < 65536
        ∧ p = encodeLE 2 (x.length + 4) ++ encodeLE 2 k ++ x ++
              List.replicate ((4 - x.length % 4) % 4) 0 ++ q
        ∧ decodeLE (p.take 2) = x.length + 4
        ∧ (decodeLE (p.take 2)).testBit 15 = decide (32768 ≤ x.length + 4))
  ∧ (∀ (fuel : Nat) (s : Schema) (al : AttrL) (p : List Nat),
      packAttrList fuel s al = some p → p.length % 4 = 0) := by
  have hstep : ∀ (fuel : Nat) (s : Schema) (k : Nat) (v : NlVal)
      (rest : AttrL) (p : List Nat),
      packAttrList (fuel + 1) s (.acons k v rest) = some p →
      ∃ pkr x q, lookupPacker s k = some pkr
        ∧ packPayload fuel s pkr v = some x
        ∧ packAttrList fuel s rest = some q
        ∧ x.length + 4 < 65536 ∧ k < 65536
        ∧ p = encodeLE 2 (x.length + 4) ++ encodeLE 2 k ++ x ++
              List.replicate ((4 - x.length % 4) % 4) 0 ++ q
        ∧ decodeLE (p.take 2) = x.length + 4
        ∧ (decodeLE (p.take 2)).testBit 15 = decide (32768 ≤ x.length + 4) := by
    intro fuel s k v rest p hp
    obtain ⟨pkr, x, q, hlp, hx, hq, hb, hk, hpeq⟩ :=
      pack_cons_decomp fuel s k v rest p hp
    have htake : p.take 2 = encodeLE 2 (x.length + 4) := by
      rw [hpeq, List.append_assoc, List.append_assoc, List.append_assoc]
      exact List.take_left' (length_encodeLE 2 (x.length + 4))
    have hdec : decodeLE (p.take 2) = x.length + 4 := by
      rw [htake]
      exact decodeLE_encodeLE 2 (x.length + 4) (by norm_num; omega)
    refine ⟨pkr, x, q, hlp, hx, hq, hb, hk, ?_, hdec, ?_⟩
    · rw [hpeq, padLen_mod]
    · rw [hdec]
      exact testBit15_iff (x.length + 4) hb
  refine ⟨hstep, ?_⟩
  intro fuel
  induction fuel with
  | zero => intro s al p hp; exact absurd hp (by simp [packAttrList])
  | succ fuel ih =>
    intro s al p hp
    cases al with
    | anil =>
      have : p = [] := (Option.some_injective _ hp.symm)
      simp [this]
    | acons k v rest =>
      obtain ⟨pkr, x, q, _, _, hq, _, _, hpeq, _, _⟩ :=
        hstep fuel s k v rest p hp
      have hqlen := ih s rest q hq
      have hxpad := pad_mod_four x.length
      rw [hpeq]
      simp [List.length_append, length_encodeLE, List.length_replicate,
        padLen_mod] at hxpad ⊢
      omega

/-- Witness for C4 at a concrete one-field instance. -/
theorem pack_header_and_alignment_witness :
    decodeLE (([5, 0, 1, 0, 7, 0, 0, 0] : List Nat).take 2) = 1 + 4
  ∧ ([5, 0, 1, 0, 7, 0, 0, 0] : List Nat).length % 4 = 0 := by
  obtain ⟨pkr, x, q, h1, h2, h3, h4, h5, h6, h7, h8⟩ :=
    pack_header_and_alignment.1 2 (.scons (.scalar .u8) .snil) 1
      (.vint 7) .anil [5, 0, 1, 0, 7, 0, 0, 0] (by decide)
  have hpkr : pkr = .scalar .u8 := by
    have h1' := h1
    simp [lookupPacker] at h1'
    exact h1'.symm
  subst hpkr
  have hx : x = [7] := Option.some_injective _ (h2.symm.trans
    (by decide : packPayload 2 (.scons (.scalar .u8) .snil)
      (.scalar .u8) (.vint 7) = some [7]))
  refine ⟨?_, pack_header_and_alignment.2 3 (.scons (.scalar .u8) .snil)
    (.acons 1 (.vint 7) .anil) [5, 0, 1, 0, 7, 0, 0, 0] (by decide)⟩
  rw [h7, hx]
  rfl

/-- A 32764-byte binary payload: its TLV length word is 32768 =
0x8000, the smallest value whose bit 15 is set. -/
def bigPayload : List Nat := List.replicate 32764 0

/-- One binary field. -/
def bigSchema : Schema := .scons .binary .snil

/-- The instance holding the 32764-byte blob under key 1. -/
def bigAttrs : AttrL := .acons 1 (.vbytes bigPayload) .anil

/-- Its packed form: header `(0x8000, 1)` then the payload (the
payload length is a multiple of 4, so no padding). -/
def bigPacked : List Nat := 0 :: 128 :: 1 :: 0 :: bigPayload

theorem pack_single_binary (b : List Nat) (hb : b.length + 4 < 65536) :
    packAttrList 2 (.scons .binary .snil) (.acons 1 (.vbytes b) .anil) =
      some (encodeLE 2 (b.length + 4) ++ encodeLE 2 1 ++ b ++
            List.replicate (padLen b.length) 0) := by
  simp only [packAttrList, packPayload, lookupPacker, reduceIte]
  rw [if_pos ⟨hb, by norm_num⟩]
  simp

theorem pack_big : packAttrList 2 bigSchema bigAttrs = some bigPacked := by
  have hlen : bigPayload.length = 32764 :=
    show (List.replicate 32764 (0 : Nat)).length = 32764 by
      rw [List.length_replicate]
  have h := pack_single_binary bigPayload (by rw [hlen]; norm_num)
  show packAttrList 2 (.scons .binary .snil)
    (.acons 1 (.vbytes bigPayload) .anil) = some bigPacked
  rw [h, hlen]
  have h1 : encodeLE 2 (32764 + 4) = [0, 128] := by decide
  have h2 : List.replicate (padLen 32764) (0 : Nat) = [] := by decide
  have h3 : encodeLE 2 1 = [1, 0] := by decide
  rw [h1, h3, h2]
  simp [bigPacked]

/-- A frame whose masked length word is 0 makes the walk advance by
zero bytes: the source loop never terminates, whatever the fuel. -/
theorem unpack_stuck (s : Schema) (b0 b1 b2 b3 : Nat) (rest : List Nat)
    (hmask : (b0 + 256 * b1) &&& 0x7fff = 0) :
    ∀ (fuel : Nat) (acc : AttrL),
      unpackAttrsAux fuel s acc (b0 :: b1 :: b2 :: b3 :: rest) = none := by
  intro fuel
  induction fuel with
  | zero => intro acc; rfl
  | succ f ih =>
    intro acc
    have hlen : ¬((b0 :: b1 :: b2 :: b3 :: rest).length < 4) := by simp
    simp only [unpackAttrsAux, hlen, if_false, List.take_succ_cons,
      List.take_zero, List.drop_nil, decodeLE, List.drop_succ_cons,
      List.drop_zero, align4, Nat.mul_zero, Nat.add_zero, hmask]
    cases lookupPacker s (b2 + 256 * b3) with
    | none => rfl
    | some pkr =>
      cases h : unpackPayloadAux f s pkr [] with
      | none => simp [h]
      | some v => simp [h, ih (setA acc (b2 + 256 * b3) v)]

/-- C3 counterexample: the one-field instance with a 32764-byte
binary blob packs fine, but unpacking the result reads a length word
of 0x8000, masks it to 0 and loops forever (none for the wrapper and
for every fuel), so `S.unpack(S.pack(x))` is not `x`. -/
theorem roundtrip_mask_counterexample :
    packAttrList 2 bigSchema bigAttrs = some bigPacked
  ∧ attrListUnpack bigSchema bigPacked = none :=
  ⟨pack_big,
   unpack_stuck bigSchema 0 128 1 0 bigPayload (by decide)
     (bigPacked.length + 1) .anil⟩

/-- C4 counterexample: the same instance's emitted TLV has bit 15 of
its length word set (the word is 0x8000 = 32764 + 4), refuting
"never setting bit 15 of the length word" read as a property of the
output. -/
theorem pack_bit15_set_counterexample :
    packAttrList 2 bigSchema bigAttrs = some bigPacked
  ∧ (decodeLE (bigPacked.take 2)).testBit 15 = true :=
  ⟨pack_big, by decide⟩

/-- Every scalar codec inverts its own pack: a value accepted by
`struct.pack` comes back unchanged from `struct.unpack`. -/
theorem scalar_roundtrip (f : ScalarFmt) (i : Int) (b : List Nat)
    (h : scalarPack f i = some b) : scalarUnpack f b = some i := by
  cases f with
  | i32 =>
    simp only [scalarPack] at h
    split at h
    · rename_i hrange
      have hb : b = encodeLE 4 ((i % 2 ^ 32).toNat) :=
        (Option.some_injective _ h).symm
      have hmod : (0 : Int) ≤ i % 2 ^ 32 ∧ i % 2 ^ 32 < 2 ^ 32 := by omega
      have hlt : (i % 2 ^ 32).toNat < 256 ^ 4 := by omega
      have hdec : decodeLE b = (i % 2 ^ 32).toNat := by
        rw [hb]
        exact decodeLE_encodeLE 4 _ hlt
      have hlen : b.length = 4 := by rw [hb]; exact length_encodeLE 4 _
      simp [scalarUnpack, fmtWidth, fmtBigEndian, hlen, hdec]
      split <;> omega
    · exact absurd h (by simp)
  | u8 =>
    simp only [scalarPack, fmtWidth, fmtBigEndian] at h
    split at h
    · rename_i hrange
      have hb : b = encodeLE 1 i.toNat := by
        simpa using (Option.some_injective _ h).symm
      have hlen : b.length = 1 := by rw [hb]; exact length_encodeLE 1 _
      have hdec : decodeLE b = i.toNat := by
        rw [hb]
        exact decodeLE_encodeLE 1 _ (by omega)
      simp [scalarUnpack, fmtWidth, fmtBigEndian, hlen, hdec]
      omega
    · exact absurd h (by simp)
  | u16 =>
    simp only [scalarPack, fmtWidth, fmtBigEndian] at h
    split at h
    · rename_i hrange
      have hb : b = encodeLE 2 i.toNat := by
        simpa using (Option.some_injective _ h).symm
      have hlen : b.length = 2 := by rw [hb]; exact length_encodeLE 2 _
      have hdec : decodeLE b = i.toNat := by
        rw [hb]
        exact decodeLE_encodeLE 2 _ (by omega)
      simp [scalarUnpack, fmtWidth, fmtBigEndian, hlen, hdec]
      omega
    · exact absurd h (by simp)
  | u32 =>
    simp only [scalarPack, fmtWidth, fmtBigEndian] at h
    split at h
    · rename_i hrange
      have hb : b = encodeLE 4 i.toNat := by
        simpa using (Option.some_injective _ h).symm
      have hlen : b.length = 4 := by rw [hb]; exact length_encodeLE 4 _
      have hdec : decodeLE b = i.toNat := by
        rw [hb]
        exact decodeLE_encodeLE 4 _ (by omega)
      simp [scalarUnpack, fmtWidth, fmtBigEndian, hlen, hdec]
      omega
    · exact absurd h (by simp)
  | u64 =>
    simp only [scalarPack, fmtWidth, fmtBigEndian] at h
    split at h
    · rename_i hrange
      have hb : b = encodeLE 8 i.toNat := by
        simpa using (Option.some_injective _ h).symm
      have hlen : b.length = 8 := by rw [hb]; exact length_encodeLE 8 _
      have hdec : decodeLE b = i.toNat := by
        rw [hb]
        exact decodeLE_encodeLE 8 _ (by omega)
      simp [scalarUnpack, fmtWidth, fmtBigEndian, hlen, hdec]
      omega
    · exact absurd h (by simp)
  | net16 =>
    simp only [scalarPack, fmtWidth, fmtBigEndian] at h
    split at h
    · rename_i hrange
      have hb : b = (encodeLE 2 i.toNat).reverse := by
        simpa using (Option.some_injective _ h).symm
      have hlen : b.length = 2 := by
        rw [hb, List.length_reverse]
        exact length_encodeLE 2 _
      have hdec : decodeLE b.reverse = i.toNat := by
        rw [hb, List.reverse_reverse]
        exact decodeLE_encodeLE 2 _ (by omega)
      simp only [scalarUnpack, fmtWidth, fmtBigEndian, hlen, if_true, hdec,
        reduceIte]
      congr 1
      omega
    · exact absurd h (by simp)
  | net32 =>
    simp only [scalarPack, fmtWidth, fmtBigEndian] at h
    split at h
    · rename_i hrange
      have hb : b = (encodeLE 4 i.toNat).reverse := by
        simpa using (Option.some_injective _ h).symm
      have hlen : b.length = 4 := by
        rw [hb, List.length_reverse]
        exact length_encodeLE 4 _
      have hdec : decodeLE b.reverse = i.toNat := by
        rw [hb, List.reverse_reverse]
        exact decodeLE_encodeLE 4 _ (by omega)
      simp only [scalarUnpack, fmtWidth, fmtBigEndian, hlen, if_true, hdec,
        reduceIte]
      congr 1
      omega
    · exact absurd h (by simp)

theorem keysOf_appendA : ∀ (a b : AttrL),
    keysOf (appendA a b) = keysOf a ++ keysOf b
  | .anil, b => by simp [appendA, keysOf]
  | .acons k v rest, b => by
    simp [appendA, keysOf, keysOf_appendA rest b]

theorem appendA_assoc : ∀ (a b c : AttrL),
    appendA (appendA a b) c = appendA a (appendA b c)
  | .anil, b, c => by simp [appendA]
  | .acons k v rest, b, c => by simp [appendA, appendA_assoc rest b c]

/-- Storing a key absent from the dict appends the binding. -/
theorem setA_fresh : ∀ (acc : AttrL) (k : Nat) (v : NlVal),
    ¬(k ∈ keysOf acc) →
    setA acc k v = appendA acc (.acons k v .anil)
  | .anil, k, v, _ => rfl
  | .acons k0 v0 rest, k, v, h => by
    simp only [keysOf, List.mem_cons, not_or] at h
    simp only [setA, appendA]
    rw [if_neg (fun he => h.1 he.symm), setA_fresh rest k v h.2]

/-- One iteration of the unpack loop on a buffer of at least 4
bytes. -/
theorem unpack_step (s : Schema) (fuel : Nat) (acc : AttrL)
    (b0 b1 b2 b3 : Nat) (rest : List Nat) :
    unpackAttrsAux (fuel + 1) s acc (b0 :: b1 :: b2 :: b3 :: rest) =
      match lookupPacker s (b2 + 256 * b3) with
      | none => none
      | some pkr =>
        match unpackPayloadAux fuel s pkr
            (((b0 :: b1 :: b2 :: b3 :: rest).take
              ((b0 + 256 * b1) &&& 0x7fff)).drop 4) with
        | none => none
        | some v =>
          unpackAttrsAux fuel s (setA acc (b2 + 256 * b3) v)
            ((b0 :: b1 :: b2 :: b3 :: rest).drop
              ((((b0 + 256 * b1) &&& 0x7fff) + 3) / 4 * 4)) := by
  have hlen : ¬((b0 :: b1 :: b2 :: b3 :: rest).length < 4) := by simp
  simp only [unpackAttrsAux, hlen, if_false, List.take_succ_cons,
    List.take_zero, decodeLE, List.drop_succ_cons, List.drop_zero,
    align4, Nat.mul_zero, Nat.add_zero]

/-- A packed TLV in explicit byte form. -/
theorem tlv_spine (x q : List Nat) (k : Nat) :
    encodeLE 2 (x.length + 4) ++ encodeLE 2 k ++ x ++
      List.replicate (padLen x.length) 0 ++ q =
    ((x.length + 4) % 256) :: ((x.length + 4) / 256 % 256) :: (k % 256) ::
      (k / 256 % 256) :: (x ++ List.replicate (padLen x.length) 0 ++ q) := by
  simp [encodeLE, List.append_assoc]

/-- Unpacking a buffer that starts with a well-formed TLV whose
length word stays below the 0x8000 mask consumes exactly that TLV:
the payload decodes, the binding is stored, and the walk continues on
the remainder. -/
theorem unpack_cons_tlv (ufuel : Nat) (s : Schema) (acc : AttrL) (k : Nat)
    (x q : List Nat) (pkr : NlPacker) (v : NlVal)
    (b0 b1 b2 b3 : Nat)
    (h01 : b0 + 256 * b1 = x.length + 4)
    (h23 : b2 + 256 * b3 = k)
    (hx : x.length + 4 < 32768)
    (hlp : lookupPacker s k = some pkr)
    (hpv : unpackPayloadAux ufuel s pkr x = some v) :
    unpackAttrsAux (ufuel + 1) s acc
      (b0 :: b1 :: b2 :: b3 :: (x ++ List.replicate (padLen x.length) 0 ++ q)) =
    unpackAttrsAux ufuel s (setA acc k v) q := by
  rw [unpack_step, h01, h23, and_mask15 _ hx]
  have htake : ((b0 :: b1 :: b2 :: b3 ::
      (x ++ List.replicate (padLen x.length) 0 ++ q)).take (x.length + 4)).drop 4
      = x := by
    have h4 : x.length + 4 = x.length + 1 + 1 + 1 + 1 := by omega
    rw [h4]
    simp only [List.take_succ_cons, List.drop_succ_cons, List.drop_zero]
    rw [List.append_assoc x, List.take_left' rfl]
  have hdrop : (b0 :: b1 :: b2 :: b3 ::
      (x ++ List.replicate (padLen x.length) 0 ++ q)).drop
        ((x.length + 4 + 3) / 4 * 4) = q := by
    have ha : (x.length + 4 + 3) / 4 * 4 =
        x.length + padLen x.length + 1 + 1 + 1 + 1 := by
      have := align4_tlv x.length
      unfold align4 at this
      omega
    rw [ha]
    simp only [List.drop_succ_cons]
    rw [show x ++ List.replicate (padLen x.length) 0 ++ q =
      (x ++ List.replicate (padLen x.length) 0) ++ q from rfl]
    rw [List.drop_left' (by simp)]
  simp only [hlp, htake, hpv, hdrop]

theorem appendA_nil : ∀ a : AttrL, appendA a .anil = a
  | .anil => rfl
  | .acons k v rest => by simp [appendA, appendA_nil rest]

/-- Joint induction for the round trip: a pack output below the
0x8000 mask boundary unpacks (with adequate fuel) back to exactly the
bindings that were packed, appended to the accumulator; and every
packed payload decodes back to its value. -/
theorem roundAux : ∀ fuel : Nat,
    (∀ (s : Schema) (al : AttrL) (p : List Nat) (acc : AttrL) (ufuel : Nat),
      packAttrList fuel s al = some p →
      attrNodup al = true →
      (∀ k', k' ∈ keysOf al → ¬(k' ∈ keysOf acc)) →
      p.length < 32768 →
      p.length < ufuel →
      unpackAttrsAux ufuel s acc p = some (appendA acc al))
  ∧ (∀ (s : Schema) (pkr : NlPacker) (v : NlVal) (b : List Nat) (ufuel : Nat),
      packPayload fuel s pkr v = some b →
      valNodup v = true →
      b.length < 32768 →
      b.length + 1 < ufuel →
      unpackPayloadAux ufuel s pkr b = some v) := by
  intro fuel
  induction fuel with
  | zero =>
    constructor
    · intro s al p acc ufuel hp
      exact absurd hp (by simp [packAttrList])
    · intro s pkr v b ufuel hp
      exact absurd hp (by simp [packPayload])
  | succ fuel ih =>
    obtain ⟨ihP, ihQ⟩ := ih
    constructor
    · intro s al p acc ufuel hp hnd hdisj hsize hfuel
      cases al with
      | anil =>
        have hpe : p = [] := by
          simp only [packAttrList] at hp
          exact (Option.some_injective _ hp).symm
        subst hpe
        obtain ⟨u, rfl⟩ : ∃ u, ufuel = u + 1 := ⟨ufuel - 1, by omega⟩
        rw [appendA_nil]
        rfl
      | acons k v rest =>
        obtain ⟨pkr, x, q, hlp, hx, hq, hb, hk, hpeq⟩ :=
          pack_cons_decomp fuel s k v rest p hp
        have hnd' := hnd
        simp only [attrNodup, Bool.and_eq_true, Bool.not_eq_true',
          List.contains, List.elem_eq_mem, decide_eq_false_iff_not] at hnd'
        obtain ⟨⟨hkfresh, hvnd⟩, hrestnd⟩ := hnd'
        have hplen : p.length = 4 + x.length + padLen x.length + q.length := by
          rw [hpeq]
          simp [List.length_append, length_encodeLE, List.length_replicate]
          omega
        obtain ⟨u, rfl⟩ : ∃ u, ufuel = u + 1 := ⟨ufuel - 1, by omega⟩
        have hpv : unpackPayloadAux u s pkr x = some v :=
          ihQ s pkr v x u hx hvnd (by omega) (by omega)
        rw [hpeq, tlv_spine]
        rw [unpack_cons_tlv u s acc k x q pkr v _ _ _ _ (by omega) (by omega)
          (by omega) hlp hpv]
        rw [setA_fresh acc k v (fun hmem => hdisj k (by simp [keysOf]) hmem)]
        have hrec := ihP s rest q (appendA acc (.acons k v .anil)) u hq hrestnd
          (fun k' hk' => by
            rw [keysOf_appendA]
            simp only [List.mem_append, keysOf, List.mem_cons,
              List.not_mem_nil, or_false, not_or]
            exact ⟨hdisj k' (by simp [keysOf, hk']),
              fun he => hkfresh (he ▸ hk')⟩)
          (by omega) (by omega)
        rw [hrec, appendA_assoc]
        rfl
    · intro s pkr v b ufuel hp hvnd hsize hfuel
      obtain ⟨u, rfl⟩ : ∃ u, ufuel = u + 1 := ⟨ufuel - 1, by omega⟩
      cases pkr with
      | scalar f =>
        cases v with
        | vint i =>
          simp only [packPayload] at hp
          simp [unpackPayloadAux, scalar_roundtrip f i b hp]
        | vbytes bb => exact absurd hp (by simp [packPayload])
        | vstr str => exact absurd hp (by simp [packPayload])
        | vnone => exact absurd hp (by simp [packPayload])
        | vlist al => exact absurd hp (by simp [packPayload])
      | binary =>
        cases v with
        | vbytes bb =>
          simp only [packPayload] at hp
          have : bb = b := Option.some_injective _ hp
          subst this
          rfl
        | vint i => exact absurd hp (by simp [packPayload])
        | vstr str => exact absurd hp (by simp [packPayload])
        | vnone => exact absurd hp (by simp [packPayload])
        | vlist al => exact absurd hp (by simp [packPayload])
      | nulString =>
        cases v with
        | vstr str =>
          simp only [packPayload] at hp
          have hbe : b = str ++ [0] := (Option.some_injective _ hp).symm
          subst hbe
          simp [unpackPayloadAux, List.getLast?_concat, List.dropLast_concat]
        | vint i => exact absurd hp (by simp [packPayload])
        | vbytes bb => exact absurd hp (by simp [packPayload])
        | vnone => exact absurd hp (by simp [packPayload])
        | vlist al => exact absurd hp (by simp [packPayload])
      | ignore =>
        exact absurd hp (by cases v <;> simp [packPayload])
      | recursiveSelf =>
        cases v with
        | vlist al =>
          simp only [packPayload] at hp
          have hvnd' : attrNodup al = true := by simpa [valNodup] using hvnd
          have h := ihP s al b .anil u hp hvnd'
            (fun k' _ hmem => by simp [keysOf] at hmem) hsize (by omega)
          simp [unpackPayloadAux, h, appendA]
        | vint i => exact absurd hp (by simp [packPayload])
        | vbytes bb => exact absurd hp (by simp [packPayload])
        | vstr str => exact absurd hp (by simp [packPayload])
        | vnone => exact absurd hp (by simp [packPayload])
      | nested s2 =>
        cases v with
        | vlist al =>
          simp only [packPayload] at hp
          have hvnd' : attrNodup al = true := by simpa [valNodup] using hvnd
          have h := ihP s2 al b .anil u hp hvnd'
            (fun k' _ hmem => by simp [keysOf] at hmem) hsize (by omega)
          simp [unpackPayloadAux, h, appendA]
        | vint i => exact absurd hp (by simp [packPayload])
        | vbytes bb => exact absurd hp (by simp [packPayload])
        | vstr str => exact absurd hp (by simp [packPayload])
        | vnone => exact absurd hp (by simp [packPayload])

/-- C3 (amended): for every attribute-list schema and every instance
with only known fields set (each at most once, as dict-backed
instances guarantee), whose packed encoding is shorter than 0x8000
bytes, `S.unpack(S.pack(x))` returns exactly the packed bindings —
for every payload codec variant: fixed-width scalars, network-endian
scalars, binary, nul-terminated string, nested attribute lists and
the self-reference marker.  (At 0x8000 bytes and beyond the 0x7FFF
mask corrupts the parse; see the counterexample.) -/
theorem attrlist_roundtrip (fuel : Nat) (s : Schema) (al : AttrL)
    (p : List Nat)
    (hpack : packAttrList fuel s al = some p)
    (hnd : attrNodup al = true)
    (hsize : p.length < 32768) :
    attrListUnpack s p = some al := by
  have h := (roundAux fuel).1 s al p .anil (p.length + 1) hpack hnd
    (fun k' _ hmem => by simp [keysOf] at hmem) hsize (by omega)
  simpa [attrListUnpack, appendA] using h

/-- A schema exercising every codec variant: u16 scalar, binary,
nul-string, a nested list and the self-reference marker. -/
def rtSchema : Schema :=
  .scons (.scalar .u16) (.scons .binary (.scons .nulString
    (.scons (.nested (.scons (.scalar .u8) .snil))
      (.scons .recursiveSelf .snil))))

/-- An instance setting all five fields of `rtSchema`. -/
def rtAttrs : AttrL :=
  .acons 1 (.vint 513) (.acons 2 (.vbytes [1, 2, 3])
    (.acons 3 (.vstr [104, 105])
      (.acons 4 (.vlist (.acons 1 (.vint 7) .anil))
        (.acons 5 (.vlist (.acons 1 (.vint 258) .anil)) .anil))))

/-- The packed form of `rtAttrs`. -/
def rtPacked : List Nat :=
  [6, 0, 1, 0, 1, 2, 0, 0,
   7, 0, 2, 0, 1, 2, 3, 0,
   7, 0, 3, 0, 104, 105, 0, 0,
   12, 0, 4, 0, 5, 0, 1, 0, 7, 0, 0, 0,
   12, 0, 5, 0, 6, 0, 1, 0, 2, 1, 0, 0]

/-- Witness for C3 covering every codec variant. -/
theorem attrlist_roundtrip_witness :
    packAttrList 9 rtSchema rtAttrs = some rtPacked
  ∧ attrNodup rtAttrs = true
  ∧ rtPacked.length < 32768
  ∧ attrListUnpack rtSchema rtPacked = some rtAttrs :=
  ⟨by decide, by decide, by decide,
   attrlist_roundtrip 9 rtSchema rtAttrs rtPacked (by decide) (by decide)
     (by decide)⟩
